import Mathlib

/-!
Verification of the duplicate-file finder (find-duplicate-files.py).

The development shallowly embeds the pure core of the program:

- the glob matcher built on the fnmatch module (class Matcher in the source),
- the path collector (function collect_file_paths),
- the digest worker and result aggregator (functions compute_hash and
  file_hashes), including an executable MD5,
- the group filtering, rendering and exit-code logic of main.

Strings from the program are modelled as Lean String where only equality,
membership and sorting matter, and as List Char inside the glob matcher where
the code indexes into the text.  File contents are lists of byte values
(Nat below 256).  The filesystem and the file reader are passed explicitly as
functions, since the code only observes them through is_file, is_dir, walk and
open/read.
-/

/-! ## Glob matching

The source builds filename filters on fnmatch.fnmatch.  On a POSIX system
os.path.normcase is the identity, so fnmatch.fnmatch coincides with
fnmatch.fnmatchcase: a shell-style pattern match with no case folding of its
own.  The model below implements the documented pattern language: the star
matches any sequence of characters, the question mark matches any single
character, a bracket expression matches one character from a set (negated when
it starts with an exclamation mark, with code-point ranges written lo-hi, a
closing bracket taken literally when it is the first member, and an unclosed
bracket expression taken as a literal open bracket, as the fnmatch translator
does).
-/

/-- One member of a bracket expression: a single character or a code-point
range.  A reversed range (lo above hi) matches nothing, which is also how the
fnmatch translator treats empty ranges. -/
inductive BracketItem where
  | single (c : Char)
  | range (lo hi : Char)
deriving DecidableEq

/-- Parse the body of a bracket expression into its members.  A hyphen pairs
its two neighbours into a range; hyphens at the start or end of the body are
literal, matching how the fnmatch translator builds its character class. -/
def parseBracketItems : List Char → List BracketItem
  | a :: '-' :: b :: rest => BracketItem.range a b :: parseBracketItems rest
  | a :: rest => BracketItem.single a :: parseBracketItems rest
  | [] => []

/-- Split a character list at the first closing bracket, returning the body
before it and the remainder after it; none when no closing bracket exists. -/
def splitAtCloseBracket : List Char → Option (List Char × List Char)
  | [] => none
  | c :: rest =>
    if c = ']' then some ([], rest)
    else (splitAtCloseBracket rest).map fun br => (c :: br.1, br.2)

/-- Parse a bracket expression given the characters after the opening bracket:
an optional leading exclamation mark negates the set, and a closing bracket
placed first is a literal member.  Returns the negation flag, the members and
the rest of the pattern, or none when the expression is unclosed (in which
case the opening bracket is a literal character, as in fnmatch). -/
def parseBracket (cs : List Char) : Option (Bool × List BracketItem × List Char) :=
  let p := match cs with
    | '!' :: t => (true, t)
    | _ => (false, cs)
  match p.2 with
  | ']' :: t => (splitAtCloseBracket t).map fun br => (p.1, parseBracketItems (']' :: br.1), br.2)
  | _ => (splitAtCloseBracket p.2).map fun br => (p.1, parseBracketItems br.1, br.2)

/-- Membership of one character in one bracket-expression member; ranges
compare code points, as the regular expression produced by fnmatch does. -/
def bracketItemMatches (c : Char) : BracketItem → Bool
  | BracketItem.single a => c = a
  | BracketItem.range lo hi => lo ≤ c && c ≤ hi

/-- Fuel-indexed core of the fnmatch pattern match.  Every recursive call
strictly decreases the sum of the lengths of pattern and name, so any fuel
beyond that sum makes the function total in the intended sense; the fuel only
serves to keep the recursion structural. -/
def fnmatchAux : Nat → List Char → List Char → Bool
  | 0, _, _ => false
  | fuel + 1, pat, name =>
    match pat with
    | [] => name.isEmpty
    | '*' :: ps =>
      fnmatchAux fuel ps name ||
        (match name with
         | [] => false
         | _ :: ns => fnmatchAux fuel ('*' :: ps) ns)
    | '?' :: ps =>
      (match name with
       | [] => false
       | _ :: ns => fnmatchAux fuel ps ns)
    | '[' :: ps =>
      (match parseBracket ps with
       | some (negate, items, rest) =>
         (match name with
          | [] => false
          | c :: ns => (items.any (bracketItemMatches c) != negate) && fnmatchAux fuel rest ns)
       | none =>
         (match name with
          | [] => false
          | c :: ns => (c = '[' : Bool) && fnmatchAux fuel ps ns))
    | p :: ps =>
      (match name with
       | [] => false
       | c :: ns => (c = p : Bool) && fnmatchAux fuel ps ns)

/-- The fnmatch.fnmatchcase entry point: a full match of the name against the
whole pattern. -/
def fnmatchcase (name pat : List Char) : Bool :=
  fnmatchAux (pat.length + name.length + 1) pat name

/-- The fnmatch.fnmatch entry point.  It first applies os.path.normcase to
both arguments, which on POSIX is the identity, so it equals fnmatchcase. -/
def fnmatch (name pat : List Char) : Bool := fnmatchcase name pat

/-- Lowercasing of a character list, modelling str.lower as used by the
matcher (ASCII folding via Char.toLower, which covers the glob patterns and
filenames at issue). -/
def lowerChars (s : List Char) : List Char := s.map Char.toLower

/-- The Matcher class of the source: the stored negation flag and the stored
pattern (already lowercased when the matcher is case-insensitive). -/
structure Matcher where
  negate : Bool
  pat : List Char
deriving DecidableEq

/-- Constructor of Matcher: a leading exclamation mark is stripped and sets
the negation flag; in case-insensitive mode the remaining pattern is
lowercased.  The stored name test calls fnmatch.fnmatch on the stored
pattern in both modes. -/
def Matcher.init (glob : List Char) (case_insensitive : Bool) : Matcher :=
  let negate : Bool := decide (glob.head? = some '!')
  let g := if negate then glob.tail else glob
  let g := if case_insensitive then lowerChars g else g
  { negate := negate, pat := g }

/-- The call method of Matcher: when the stored name test succeeds the result
is the complement of the negation flag, otherwise the negation flag. -/
def Matcher.call (m : Matcher) (filename : List Char) : Bool :=
  if fnmatch filename m.pat then !m.negate else m.negate

/-- The case-insensitive match the specification describes: both the pattern
and the name lowercased, then compared case-sensitively. -/
def matchesLoweredBoth (p n : List Char) : Bool :=
  fnmatch (lowerChars n) (lowerChars p)

/-- C4: the code lowercases only the pattern.  At glob star-dot-t-x-t in
case-insensitive mode and filename A.TXT, the matcher of the code rejects the
name, while lowercasing both pattern and name (as the claim states) accepts
it.  The two sides of the claimed equation differ, because fnmatch.fnmatch
leaves the case of the name untouched on POSIX. -/
theorem glob_case_insensitive_code_bug :
    Matcher.call (Matcher.init "*.txt".toList true) "A.TXT".toList = false ∧
    matchesLoweredBoth "*.txt".toList "A.TXT".toList = true := by
  constructor
  · rfl
  · rfl

/-- C5, counterexample: the negation law fails when the pattern itself starts
with an exclamation mark.  For p the two-character pattern bang-a and the name
b, the filter built from bang-bang-a accepts b (it negates the literal pattern
bang-a, which does not match b), and the filter built from bang-a also accepts
b, so the claimed equivalence between acceptance and rejection is false. -/
theorem glob_negation_counterexample :
    ¬ (Matcher.call (Matcher.init ('!' :: "!a".toList) false) "b".toList = true ↔
       Matcher.call (Matcher.init "!a".toList false) "b".toList = false) := by
  decide

/-- C5, amended: for every pattern p that does not itself start with an
exclamation mark, and every name and case mode, the filter built from the
pattern prefixed with an exclamation mark accepts the name exactly when the
filter built from p alone rejects it. -/
theorem glob_negation_law (p n : List Char) (ci : Bool) (h : p.head? ≠ some '!') :
    Matcher.call (Matcher.init ('!' :: p) ci) n = !(Matcher.call (Matcher.init p ci) n) := by
  have h1 : Matcher.init ('!' :: p) ci = { negate := true, pat := if ci then lowerChars p else p } := by
    simp [Matcher.init]
  have h2 : Matcher.init p ci = { negate := false, pat := if ci then lowerChars p else p } := by
    simp [Matcher.init, h]
  rw [h1, h2]
  unfold Matcher.call
  by_cases hm : fnmatch n (if ci then lowerChars p else p) = true
  · simp [hm]
  · simp [hm]

/-- Witness for the amended negation law at pattern a, name b, case-sensitive
mode. -/
theorem glob_negation_law_witness :
    Matcher.call (Matcher.init ('!' :: "a".toList) false) "b".toList =
      !(Matcher.call (Matcher.init "a".toList false) "b".toList) :=
  glob_negation_law "a".toList "b".toList false (by decide)

/-! ## Path ordering

Python sorts the path lists with sorted(), which compares strings
lexicographically by code point.  The order is modelled on the character data
of the strings; sorting is by insertion sort, which agrees with any stable
sort here because the order is linear (antisymmetric with equal keys being
equal strings), so the sorted permutation is unique.
-/

/-- Lexicographic code-point comparison of character lists, the comparison
Python uses on str values. -/
def charListLe : List Char → List Char → Bool
  | [], _ => true
  | _ :: _, [] => false
  | a :: as, b :: bs =>
    if a < b then true
    else if b < a then false
    else charListLe as bs

theorem charListLe_total : ∀ xs ys : List Char,
    charListLe xs ys = true ∨ charListLe ys xs = true := by
  intro xs
  induction xs with
  | nil => intro ys; left; rfl
  | cons a as ih =>
    intro ys
    cases ys with
    | nil => right; rfl
    | cons b bs =>
      rcases lt_trichotomy a b with hab | rfl | hab
      · left; simp [charListLe, hab]
      · rcases ih bs with h | h
        · left; simp [charListLe, h]
        · right; simp [charListLe, h]
      · right; simp [charListLe, hab]

theorem charListLe_trans : ∀ xs ys zs : List Char,
    charListLe xs ys = true → charListLe ys zs = true → charListLe xs zs = true := by
  intro xs
  induction xs with
  | nil => intro ys zs _ _; rfl
  | cons a as ih =>
    intro ys zs h1 h2
    cases ys with
    | nil => simp [charListLe] at h1
    | cons b bs =>
      cases zs with
      | nil => simp [charListLe] at h2
      | cons c cs =>
        rcases lt_trichotomy a b with hab | rfl | hab
        · rcases lt_trichotomy b c with hbc | rfl | hbc
          · simp [charListLe, lt_trans hab hbc]
          · simp [charListLe, hab]
          · simp [charListLe, lt_asymm hbc, hbc] at h2
        · simp [charListLe, lt_irrefl] at h1
          rcases lt_trichotomy a c with hac | rfl | hac
          · simp [charListLe, hac]
          · simp [charListLe, lt_irrefl] at h2 ⊢
            exact ih bs cs h1 h2
          · simp [charListLe, lt_asymm hac, hac] at h2
        · simp [charListLe, lt_asymm hab, hab] at h1

theorem charListLe_antisymm : ∀ xs ys : List Char,
    charListLe xs ys = true → charListLe ys xs = true → xs = ys := by
  intro xs
  induction xs with
  | nil =>
    intro ys h1 h2
    cases ys with
    | nil => rfl
    | cons b bs => simp [charListLe] at h2
  | cons a as ih =>
    intro ys h1 h2
    cases ys with
    | nil => simp [charListLe] at h1
    | cons b bs =>
      rcases lt_trichotomy a b with hab | rfl | hab
      · simp [charListLe, lt_asymm hab, hab] at h2
      · simp [charListLe, lt_irrefl] at h1 h2
        rw [ih bs h1 h2]
      · simp [charListLe, lt_asymm hab, hab] at h1

/-- The order on paths used by sorted(): code-point lexicographic comparison
of the underlying characters. -/
def path_le (a b : String) : Prop := charListLe a.data b.data = true

instance : DecidableRel path_le := fun a b => by unfold path_le; infer_instance

instance : IsTotal String path_le := ⟨fun a b => charListLe_total a.data b.data⟩

instance : IsTrans String path_le :=
  ⟨fun a b c => charListLe_trans a.data b.data c.data⟩

instance : IsAntisymm String path_le :=
  ⟨fun a b h1 h2 => String.ext (charListLe_antisymm a.data b.data h1 h2)⟩

/-- The sorting pass sorted() applies to each path list.  The order path_le
is linear and antisymmetric, so the sorted permutation of a list is unique
and insertion sort computes exactly what Python sorted returns. -/
def sortPaths (ps : List String) : List String := List.insertionSort path_le ps

theorem sortPaths_sorted (ps : List String) : List.Sorted path_le (sortPaths ps) :=
  List.sorted_insertionSort path_le ps

theorem sortPaths_perm (ps : List String) : (sortPaths ps).Perm ps :=
  List.perm_insertionSort path_le ps

theorem sortPaths_eq_of_perm {ps qs : List String} (h : ps.Perm qs) :
    sortPaths ps = sortPaths qs :=
  List.eq_of_perm_of_sorted ((sortPaths_perm ps).trans (h.trans (sortPaths_perm qs).symm))
    (sortPaths_sorted ps) (sortPaths_sorted qs)

/-! ## Result aggregation

The worker pool of file_hashes produces one HashResult per submitted path;
the aggregation loop consumes them in completion order and groups them with
hashes.setdefault(res.digest, []).append(res.path), then sorts every group.
Python dict semantics (insertion-ordered keys, in-place value update) are
modelled by an association list updated in place.
-/

/-- One result of compute_hash: the submitted path and the hex digest of the
file contents. -/
structure HashResult where
  path : String
  digest : String
deriving DecidableEq

/-- The digest-to-paths mapping being accumulated: an insertion-ordered
association list, the model of the Python dict. -/
abbrev DigestGroups := List (String × List String)

/-- One aggregation step, hashes.setdefault(digest, []).append(path): when
the digest is already a key its path list grows at the end, in place;
otherwise a new singleton group is appended after all existing keys. -/
def setdefaultAppend : DigestGroups → String → String → DigestGroups
  | [], d, p => [(d, [p])]
  | (k, v) :: rest, d, p =>
    if k = d then (k, v ++ [p]) :: rest
    else (k, v) :: setdefaultAppend rest d p

/-- Consumption of one completed HashResult by the aggregation loop. -/
def aggStep (m : DigestGroups) (r : HashResult) : DigestGroups :=
  setdefaultAppend m r.digest r.path

/-- Reading the mapping as a function from digest to path list. -/
def lookupGroup : DigestGroups → String → Option (List String)
  | [], _ => none
  | (k, v) :: rest, d => if k = d then some v else lookupGroup rest d

/-- The finalization pass of file_hashes: every group is sorted. -/
def finalizeGroups (m : DigestGroups) : DigestGroups :=
  m.map fun kv => (kv.1, sortPaths kv.2)

/-- The aggregation performed by file_hashes over a completed result
sequence: fold the results in completion order, then sort each group. -/
def aggregate (results : List HashResult) : DigestGroups :=
  finalizeGroups (results.foldl aggStep [])

/-- All paths of the input results carrying a given digest, in input order. -/
def pathsOf (results : List HashResult) (d : String) : List String :=
  (results.filter fun r => decide (r.digest = d)).map HashResult.path

theorem lookup_setdefaultAppend (m : DigestGroups) (d p x : String) :
    lookupGroup (setdefaultAppend m d p) x =
      if x = d then some ((lookupGroup m d).getD [] ++ [p]) else lookupGroup m x := by
  induction m with
  | nil =>
    by_cases h : x = d
    · subst h; simp [setdefaultAppend, lookupGroup]
    · simp [setdefaultAppend, lookupGroup, h, Ne.symm h]
  | cons kv rest ih =>
    obtain ⟨k, v⟩ := kv
    by_cases hk : k = d
    · subst hk
      by_cases hx : x = k
      · subst hx; simp [setdefaultAppend, lookupGroup]
      · simp [setdefaultAppend, lookupGroup, hx, Ne.symm hx]
    · by_cases hx : x = k
      · subst hx
        simp [setdefaultAppend, lookupGroup, hk, Ne.symm hk]
      · simp [setdefaultAppend, lookupGroup, hk, Ne.symm hx, ih]

/-- Combination of an existing group with the paths still to be appended. -/
def optAppend (o : Option (List String)) (ps : List String) : Option (List String) :=
  match o, ps with
  | none, [] => none
  | _, _ => some (o.getD [] ++ ps)

theorem lookup_foldl_aggStep (l : List HashResult) :
    ∀ (m : DigestGroups) (x : String),
      lookupGroup (l.foldl aggStep m) x = optAppend (lookupGroup m x) (pathsOf l x) := by
  induction l with
  | nil =>
    intro m x
    cases h : lookupGroup m x with
    | none => simp [pathsOf, optAppend, h]
    | some v => simp [pathsOf, optAppend, h]
  | cons r t ih =>
    intro m x
    rw [List.foldl_cons, ih]
    unfold aggStep
    rw [lookup_setdefaultAppend]
    by_cases hx : x = r.digest
    · subst hx
      have hpaths : pathsOf (r :: t) r.digest = r.path :: pathsOf t r.digest := by
        simp [pathsOf, List.filter_cons]
      rw [hpaths]
      cases h : lookupGroup m r.digest with
      | none => simp [optAppend, h]
      | some v => simp [optAppend, h, List.append_assoc]
    · have hpaths : pathsOf (r :: t) x = pathsOf t x := by
        simp [pathsOf, List.filter_cons, Ne.symm hx]
      rw [hpaths]
      simp [hx]

theorem lookup_foldl_aggStep_nil (l : List HashResult) (x : String) :
    lookupGroup (l.foldl aggStep []) x =
      (if pathsOf l x = [] then none else some (pathsOf l x)) := by
  rw [lookup_foldl_aggStep]
  cases h : pathsOf l x with
  | nil => simp [lookupGroup, optAppend, h]
  | cons p ps => simp [lookupGroup, optAppend, h]

theorem lookup_finalizeGroups (m : DigestGroups) (x : String) :
    lookupGroup (finalizeGroups m) x = (lookupGroup m x).map sortPaths := by
  induction m with
  | nil => rfl
  | cons kv rest ih =>
    obtain ⟨k, v⟩ := kv
    by_cases h : k = x
    · simp [finalizeGroups, lookupGroup, h]
    · simp [finalizeGroups, lookupGroup, h] at ih ⊢
      exact ih

/-- Closed form of the aggregation as a function from digest to path list:
the sorted list of all paths carrying that digest, or absent when there are
none. -/
theorem lookup_aggregate (l : List HashResult) (x : String) :
    lookupGroup (aggregate l) x =
      (if pathsOf l x = [] then none else some (sortPaths (pathsOf l x))) := by
  unfold aggregate
  rw [lookup_finalizeGroups, lookup_foldl_aggStep_nil]
  by_cases h : pathsOf l x = [] <;> simp [h]

theorem pathsOf_perm {l₁ l₂ : List HashResult} (h : l₁.Perm l₂) (d : String) :
    (pathsOf l₁ d).Perm (pathsOf l₂ d) :=
  (h.filter _).map _

/-- C3: aggregation is completion-order independent after finalization.  For
every permutation of the result sequence the aggregated mapping is the same
function from digest to path list; that function sends a digest to the
code-point-lexicographically sorted list of all paths paired with it in the
input, a sorted permutation of exactly those paths. -/
theorem aggregate_completion_order_independent
    (l₁ l₂ : List HashResult) (h : l₁.Perm l₂) :
    (∀ d, lookupGroup (aggregate l₁) d = lookupGroup (aggregate l₂) d) ∧
    (∀ d, lookupGroup (aggregate l₁) d =
      (if pathsOf l₁ d = [] then none else some (sortPaths (pathsOf l₁ d)))) ∧
    (∀ d ps, lookupGroup (aggregate l₁) d = some ps →
      List.Sorted path_le ps ∧ ps.Perm (pathsOf l₁ d)) := by
  refine ⟨?_, fun d => lookup_aggregate l₁ d, ?_⟩
  · intro d
    rw [lookup_aggregate, lookup_aggregate]
    by_cases h1 : pathsOf l₁ d = []
    · have h2 : pathsOf l₂ d = [] := (List.Perm.nil_eq (h1 ▸ pathsOf_perm h d)).symm
      simp [h1, h2]
    · have h2 : pathsOf l₂ d ≠ [] := fun e =>
        h1 (List.Perm.eq_nil (e ▸ pathsOf_perm h d))
      simp [h1, h2, sortPaths_eq_of_perm (pathsOf_perm h d)]
  · intro d ps hps
    rw [lookup_aggregate] at hps
    by_cases h1 : pathsOf l₁ d = []
    · simp [h1] at hps
    · simp [h1] at hps
      rw [← hps]
      exact ⟨sortPaths_sorted _, sortPaths_perm _⟩

/-- Witness for C3: the two completion orders of two results sharing digest h
aggregate to the same group. -/
theorem aggregate_completion_order_independent_witness :
    lookupGroup (aggregate [⟨"b", "h"⟩, ⟨"a", "h"⟩]) "h" =
      lookupGroup (aggregate [⟨"a", "h"⟩, ⟨"b", "h"⟩]) "h" :=
  (aggregate_completion_order_independent _ _ (by decide)).1 "h"

/-- C8: the non-empty-group invariant.  At every point of the aggregation
loop (after consuming any prefix of the results) every digest key maps to a
non-empty path list, and similarly in the finalized mapping; a key is present
exactly when some consumed result carries that digest; and consuming a result
makes its digest map to the previous list (empty for a fresh key) with the
new path appended at the end. -/
theorem aggregate_groups_nonempty (l : List HashResult) :
    (∀ d ps, lookupGroup (l.foldl aggStep []) d = some ps → ps ≠ []) ∧
    (∀ d ps, lookupGroup (aggregate l) d = some ps → ps ≠ []) ∧
    (∀ d, (lookupGroup (l.foldl aggStep []) d).isSome = true ↔
      d ∈ l.map HashResult.digest) ∧
    (∀ (m : DigestGroups) (r : HashResult),
      lookupGroup (aggStep m r) r.digest =
        some ((lookupGroup m r.digest).getD [] ++ [r.path])) := by
  refine ⟨?_, ?_, ?_, ?_⟩
  · intro d ps hps
    rw [lookup_foldl_aggStep_nil] at hps
    by_cases h1 : pathsOf l d = []
    · simp [h1] at hps
    · simp [h1] at hps
      exact hps ▸ h1
  · intro d ps hps
    rw [lookup_aggregate] at hps
    by_cases h1 : pathsOf l d = []
    · simp [h1] at hps
    · simp [h1] at hps
      intro hnil
      exact h1 (List.Perm.nil_eq ((hnil ▸ hps) ▸ sortPaths_perm (pathsOf l d))).symm
  · intro d
    rw [lookup_foldl_aggStep_nil]
    by_cases h1 : pathsOf l d = []
    · simp [h1]
      intro r hr hrd
      have : r.path ∈ pathsOf l d := by
        simp [pathsOf]
        exact ⟨r, ⟨hr, hrd⟩, rfl⟩
      simp [h1] at this
    · simp [h1]
      have : pathsOf l d ≠ [] := h1
      rcases List.exists_mem_of_ne_nil _ this with ⟨p, hp⟩
      simp [pathsOf] at hp
      rcases hp with ⟨r, ⟨hr, hrd⟩, _⟩
      exact ⟨r, hr, hrd⟩
  · intro m r
    unfold aggStep
    rw [lookup_setdefaultAppend]
    simp

/-- Witness for C8: a single consumed result yields the non-empty singleton
group of its path. -/
theorem aggregate_groups_nonempty_witness : (["p"] : List String) ≠ [] :=
  (aggregate_groups_nonempty [⟨"p", "d"⟩]).1 "d" ["p"] (by decide)

/-! ## MD5

The workers call hashlib.new(hash_algorithm) and feed it the file contents;
the default and the one exercised by the specification scenarios is md5.  The
implementation below is RFC 1321 md5 over a list of byte values, with 32-bit
words carried as Nat reduced modulo 2 to the 32.  It is validated inside this
file against the standard digest of the scenario input.
-/

/-- Addition modulo 2 to the 32. -/
def add32 (a b : Nat) : Nat := (a + b) % 4294967296

/-- Left rotation of a 32-bit word. -/
def rotl32 (x n : Nat) : Nat := ((x <<< n) ||| (x >>> (32 - n))) % 4294967296

/-- Bitwise complement of a 32-bit word. -/
def not32 (x : Nat) : Nat := 4294967295 ^^^ x

/-- The md5 sine-derived round constants. -/
def md5K : List Nat :=
  [0xd76aa478, 0xe8c7b756, 0x242070db, 0xc1bdceee,
   0xf57c0faf, 0x4787c62a, 0xa8304613, 0xfd469501,
   0x698098d8, 0x8b44f7af, 0xffff5bb1, 0x895cd7be,
   0x6b901122, 0xfd987193, 0xa679438e, 0x49b40821,
   0xf61e2562, 0xc040b340, 0x265e5a51, 0xe9b6c7aa,
   0xd62f105d, 0x02441453, 0xd8a1e681, 0xe7d3fbc8,
   0x21e1cde6, 0xc33707d6, 0xf4d50d87, 0x455a14ed,
   0xa9e3e905, 0xfcefa3f8, 0x676f02d9, 0x8d2a4c8a,
   0xfffa3942, 0x8771f681, 0x6d9d6122, 0xfde5380c,
   0xa4beea44, 0x4bdecfa9, 0xf6bb4b60, 0xbebfbc70,
   0x289b7ec6, 0xeaa127fa, 0xd4ef3085, 0x04881d05,
   0xd9d4d039, 0xe6db99e5, 0x1fa27cf8, 0xc4ac5665,
   0xf4292244, 0x432aff97, 0xab9423a7, 0xfc93a039,
   0x655b59c3, 0x8f0ccc92, 0xffeff47d, 0x85845dd1,
   0x6fa87e4f, 0xfe2ce6e0, 0xa3014314, 0x4e0811a1,
   0xf7537e82, 0xbd3af235, 0x2ad7d2bb, 0xeb86d391]

/-- The md5 per-round rotation amounts. -/
def md5S : List Nat :=
  [7, 12, 17, 22, 7, 12, 17, 22, 7, 12, 17, 22, 7, 12, 17, 22,
   5, 9, 14, 20, 5, 9, 14, 20, 5, 9, 14, 20, 5, 9, 14, 20,
   4, 11, 16, 23, 4, 11, 16, 23, 4, 11, 16, 23, 4, 11, 16, 23,
   6, 10, 15, 21, 6, 10, 15, 21, 6, 10, 15, 21, 6, 10, 15, 21]

/-- The four-word md5 chaining state. -/
structure MD5State where
  a : Nat
  b : Nat
  c : Nat
  d : Nat
deriving DecidableEq

/-- The md5 initialization vector. -/
def md5InitState : MD5State := ⟨0x67452301, 0xefcdab89, 0x98badcfe, 0x10325476⟩

/-- The md5 round function, selected by round index. -/
def md5F (i b c d : Nat) : Nat :=
  if i < 16 then (b &&& c) ||| (not32 b &&& d)
  else if i < 32 then (d &&& b) ||| (not32 d &&& c)
  else if i < 48 then b ^^^ c ^^^ d
  else c ^^^ (b ||| not32 d)

/-- The md5 message-word schedule, selected by round index. -/
def md5G (i : Nat) : Nat :=
  if i < 16 then i
  else if i < 32 then (5 * i + 1) % 16
  else if i < 48 then (3 * i + 5) % 16
  else (7 * i) % 16

/-- One of the 64 rounds applied to a 16-word block. -/
def md5Round (M : List Nat) (i : Nat) (s : MD5State) : MD5State :=
  let f := (md5F i s.b s.c s.d + s.a + md5K.getD i 0 + M.getD (md5G i) 0) % 4294967296
  ⟨s.d, add32 s.b (rotl32 f (md5S.getD i 0)), s.b, s.c⟩

/-- Iteration of the rounds, fuel-counted to stay structural. -/
def md5Rounds (M : List Nat) : Nat → Nat → MD5State → MD5State
  | _, 0, s => s
  | i, fuel + 1, s => md5Rounds M (i + 1) fuel (md5Round M i s)

/-- Compression of one 16-word block into the chaining state. -/
def md5Block (s : MD5State) (M : List Nat) : MD5State :=
  let t := md5Rounds M 0 64 s
  ⟨add32 s.a t.a, add32 s.b t.b, add32 s.c t.c, add32 s.d t.d⟩

/-- Compression of a padded message, 16 words at a time; the fuel is the word
count, which bounds the number of blocks. -/
def md5Blocks : Nat → MD5State → List Nat → MD5State
  | 0, s, _ => s
  | fuel + 1, s, ws =>
    if ws.isEmpty then s
    else md5Blocks fuel (md5Block s (ws.take 16)) (ws.drop 16)

/-- Little-endian packing of bytes into 32-bit words. -/
def bytesToWords : List Nat → List Nat
  | b0 :: b1 :: b2 :: b3 :: rest =>
    (b0 + 256 * (b1 + 256 * (b2 + 256 * b3))) :: bytesToWords rest
  | _ => []

/-- The eight little-endian bytes of a 64-bit value. -/
def le64 (n : Nat) : List Nat :=
  [n % 256, n / 256 % 256, n / 65536 % 256, n / 16777216 % 256,
   n / 4294967296 % 256, n / 1099511627776 % 256,
   n / 281474976710656 % 256, n / 72057594037927936 % 256]

/-- The md5 padding: a 0x80 byte, zeros to 56 modulo 64, then the bit length
as a 64-bit little-endian value. -/
def md5Pad (msg : List Nat) : List Nat :=
  let len := msg.length
  let zeros := (119 - len % 64) % 64
  msg ++ 128 :: (List.replicate zeros 0 ++ le64 ((8 * len) % 18446744073709551616))

/-- Lowercase hexadecimal digit characters. -/
def hexDigitChar (n : Nat) : Char := "0123456789abcdef".toList.getD n '0'

/-- Two lowercase hex characters of one byte. -/
def byteToHex (b : Nat) : List Char := [hexDigitChar (b / 16), hexDigitChar (b % 16)]

/-- The eight hex characters of one state word, bytes in little-endian order,
as hexdigest prints them. -/
def wordToHexLE (w : Nat) : List Char :=
  byteToHex (w % 256) ++ byteToHex (w / 256 % 256) ++
    byteToHex (w / 65536 % 256) ++ byteToHex (w / 16777216 % 256)

/-- The md5 hexdigest of a byte sequence: pad, compress, and print the final
state as 32 lowercase hex characters. -/
def md5hexOfBytes (msg : List Nat) : String :=
  let ws := bytesToWords (md5Pad msg)
  let s := md5Blocks ws.length md5InitState ws
  String.mk (wordToHexLE s.a ++ wordToHexLE s.b ++ wordToHexLE s.c ++ wordToHexLE s.d)

/-- The UTF-8 bytes of an ASCII string: for ASCII text the encoding is the
code points themselves. -/
def asciiBytes (s : String) : List Nat := s.toList.map Char.toNat

set_option maxRecDepth 100000 in
/-- Validation of the md5 model against two standard digests: the empty
message and the message abc. -/
theorem md5_standard_vectors :
    md5hexOfBytes [] = "d41d8cd98f00b204e9800998ecf8427e" ∧
    md5hexOfBytes (asciiBytes "abc") = "900150983cd24fb0d6963f7d28e17f72" := by
  constructor
  · decide
  · decide

/-! ## The worker and the run of file_hashes

The function compute_hash opens the file, reads it in blocks of 0xFFFF bytes
and feeds each block to the incremental digest, which computes exactly the
digest of the full byte content; it returns the path paired with the hex
digest.  The file reader is passed as a function from path to byte content,
and the digest algorithm as a function from bytes to hex string (md5 in the
scenarios).
-/

/-- The worker compute_hash: the submitted path paired with the digest of the
byte content read from the file. -/
def compute_hash (hash_algorithm : List Nat → String) (read_file : String → List Nat)
    (path : String) : HashResult :=
  { path := path, digest := hash_algorithm (read_file path) }

/-- Observable outcome of one run of file_hashes: the paths submitted to the
pool, the warnings written to the error channel, and the returned mapping. -/
structure FileHashesRun where
  submitted : List String
  warnings : List String
  result : DigestGroups
deriving DecidableEq

/-- The function file_hashes: submit one compute_hash unit per candidate
path; when there are none, emit the warning on the error channel and return
the empty mapping without consulting the pool; otherwise aggregate the
completed results.  The progress indicator only wraps the completion
iterator and is not part of the observable outcome; completion order is
modelled by the submission order here, which by the completion-order
independence theorem does not affect the result. -/
def file_hashes (hash_algorithm : List Nat → String) (read_file : String → List Nat)
    (paths : List String) : FileHashesRun :=
  let futures := paths.map (compute_hash hash_algorithm read_file)
  if futures.isEmpty then
    { submitted := paths, warnings := ["Warning: no files passed"], result := [] }
  else
    { submitted := paths, warnings := [], result := aggregate futures }

/-- C9: with an empty candidate sequence, no hashing work is submitted, the
warning is emitted on the error channel, and the returned mapping is empty
rather than an error. -/
theorem file_hashes_empty_input (hash_algorithm : List Nat → String)
    (read_file : String → List Nat) :
    file_hashes hash_algorithm read_file [] =
      { submitted := [], warnings := ["Warning: no files passed"], result := [] } := rfl

set_option maxRecDepth 100000 in
/-- C7, counterexample: the digest claimed for Scenario A (a 31-character
string) is not the md5 digest the code computes for the two files with
content hello; the group produced carries a different (32-character) key. -/
theorem scenario_a_counterexample :
    aggregate [compute_hash md5hexOfBytes (fun _ => asciiBytes "hello") "a.txt",
               compute_hash md5hexOfBytes (fun _ => asciiBytes "hello") "b.txt"] ≠
      [("5d41402abc4b2a76b9719d911017c59", ["a.txt", "b.txt"])] := by
  decide

set_option maxRecDepth 100000 in
/-- C7, amended: hashing the two files a.txt and b.txt with content hello
under md5 and aggregating (in either completion order) yields exactly one
group, with digest 5d41402abc4b2a76b9719d911017c592 and the sorted path list
a.txt then b.txt. -/
theorem scenario_a_amended :
    aggregate [compute_hash md5hexOfBytes (fun _ => asciiBytes "hello") "a.txt",
               compute_hash md5hexOfBytes (fun _ => asciiBytes "hello") "b.txt"] =
      [("5d41402abc4b2a76b9719d911017c592", ["a.txt", "b.txt"])] ∧
    aggregate [compute_hash md5hexOfBytes (fun _ => asciiBytes "hello") "b.txt",
               compute_hash md5hexOfBytes (fun _ => asciiBytes "hello") "a.txt"] =
      [("5d41402abc4b2a76b9719d911017c592", ["a.txt", "b.txt"])] := by
  constructor
  · decide
  · decide

/-! ## Path collection

The function collect_file_paths walks the deduplicated root set: a file root
is yielded when it passes the filename filter; a directory root contributes
its recursive walk when recursion is enabled, each produced file filtered by
base name; anything else contributes nothing.  The filesystem is passed as
explicit functions, and iteration over set(paths) is modelled by List.dedup
(the iteration order of a Python set is unspecified, and the properties
proved here do not depend on it).
-/

/-- The filesystem as the collector observes it: the is_file and is_dir
tests and the walk iterator, the latter returning pairs of a subdirectory
and the filenames directly inside it. -/
structure FileSystem where
  is_file : String → Bool
  is_dir : String → Bool
  walk : String → List (String × List String)

/-- Characters after the last slash: the name attribute of a Path value (for
paths without a trailing slash, which is how the program forms them). -/
def baseName (p : String) : List Char :=
  p.data.foldl (fun acc c => if c = '/' then [] else acc ++ [c]) []

/-- The slash operator of Path: the subdirectory joined with a filename. -/
def joinPath (dir name : String) : String := dir ++ "/" ++ name

/-- The filename filter chosen at the top of collect_file_paths: the constant
true filter always_match when no glob is given, else the Matcher. -/
def filenameMatch (glob : Option (List Char)) (ci : Bool) (name : List Char) : Bool :=
  match glob with
  | none => true
  | some g => (Matcher.init g ci).call name

/-- The collector collect_file_paths: iterate the deduplicated roots; yield a
file root when its base name passes the filter; when recursion is on, yield
every file under a directory root, filtered by base name (the source skips
the filter call when no glob is given, which the constant-true filter makes
the same list). -/
def collect_file_paths (fs : FileSystem) (paths : List String) (recursive : Bool)
    (glob : Option (List Char)) (glob_case_insensitive : Bool) : List String :=
  paths.dedup.flatMap fun path =>
    if fs.is_file path then
      if filenameMatch glob glob_case_insensitive (baseName path) then [path] else []
    else if recursive && fs.is_dir path then
      (fs.walk path).flatMap fun sd =>
        (sd.2.map (joinPath sd.1)).filter fun p =>
          filenameMatch glob glob_case_insensitive (baseName p)
    else []

/-- A filesystem with the file d/a.txt inside the directory d. -/
def overlapFS : FileSystem :=
  { is_file := fun p => decide (p = "d/a.txt")
  , is_dir := fun p => decide (p = "d")
  , walk := fun p => if p = "d" then [("d", ["a.txt"])] else [] }

/-- C6, counterexample: roots that overlap are not deduplicated across
traversals.  With the file d/a.txt given as a root and its directory d given
as a recursed root, the candidate d/a.txt is yielded twice, so it is hashed
twice. -/
theorem collect_file_paths_counterexample :
    (collect_file_paths overlapFS ["d/a.txt", "d"] true none false).count "d/a.txt" = 2 := by
  decide

/-- C6, amended: the deduplication is of the input roots only (set
semantics), so repeating a root does not change the collected stream;
distinct overlapping roots can still yield the same file more than once. -/
theorem collect_file_paths_dedups_roots (fs : FileSystem) (r : String) (rest : List String)
    (recursive : Bool) (glob : Option (List Char)) (ci : Bool) :
    collect_file_paths fs (r :: r :: rest) recursive glob ci =
      collect_file_paths fs (r :: rest) recursive glob ci := by
  unfold collect_file_paths
  rw [List.dedup_cons_of_mem (List.mem_cons_self r rest)]

/-! ## Filter and report

After the pool completes, main filters the mapping (by membership of the
digest in the match set when match digests were given, by group size
otherwise), then either exits directly in quiet mode or renders in the
chosen format and computes the exit code.  Rendering is modelled as the text
written to standard output; the ANSI styling added by click.style and
click.secho is presentation only (click strips it when the stream is not a
terminal) and is not modelled.
-/

/-- The three output formats of the format option. -/
inductive OutputFormat where
  | txt
  | json
  | csv
deriving DecidableEq

/-- The filtering step of main: with match digests given, keep the groups
whose digest is in the set, regardless of size; otherwise keep the groups
with more than one path. -/
def retainGroups (match_digests : List String) (groups : DigestGroups) : DigestGroups :=
  if !match_digests.isEmpty then
    groups.filter fun g => decide (g.1 ∈ match_digests)
  else
    groups.filter fun g => decide (1 < g.2.length)

/-- The lines echoed by echo_matched_digests: digest, colon, path for every
pair, in mapping iteration order. -/
def echo_matched_digests (groups : DigestGroups) : List String :=
  groups.flatMap fun g => g.2.map fun path => g.1 ++ ":" ++ path

/-- The lines echoed by echo_duplicate_files: a header with the count, the
algorithm and the digest, then one path per line. -/
def echo_duplicate_files (identical : DigestGroups) (hash_algorithm : String) : List String :=
  identical.flatMap fun g =>
    (toString g.2.length ++ " files with " ++ hash_algorithm ++
      " hash \x27" ++ g.1 ++ "\x27:") :: g.2

/-- Concatenation of a list of strings. -/
def concatStrings : List String → String
  | [] => ""
  | s :: rest => s ++ concatStrings rest

/-- One csv field under the minimal quoting of csv.writer: quoted with inner
quotes doubled when it contains a delimiter, a quote or a line break. -/
def csvField (s : String) : String :=
  if s.data.any (fun c => c = ',' || c = '"' || c = '\n' || c = '\r') then
    "\"" ++ String.mk (s.data.flatMap fun c => if c = '"' then ['"', '"'] else [c]) ++ "\""
  else s

/-- One csv row as csv.writer writes it: fields joined by commas and the
default line terminator, carriage return and line feed. -/
def csvRow (fields : List String) : String :=
  String.intercalate "," (fields.map csvField) ++ "\r\n"

/-- The function write_csv: the header row with the algorithm name and the
word path, then one row per digest and path pair, written sequentially. -/
def write_csv (identical : DigestGroups) (hash_algorithm : String) : String :=
  identical.foldl
    (fun acc g => g.2.foldl (fun acc2 file => acc2 ++ csvRow [g.1, file]) acc)
    (csvRow [hash_algorithm, "path"])

/-- One json string literal with quotes and backslashes escaped, as
json.dumps prints path and digest strings free of control characters. -/
def jsonString (s : String) : String :=
  "\"" ++ String.mk (s.data.flatMap fun c =>
    if c = '"' || c = '\\' then ['\\', c] else [c]) ++ "\""

/-- The json rendering of main: json.dumps of the mapping with two-space
indentation and insertion-order keys. -/
def json_dumps (groups : DigestGroups) : String :=
  if groups.isEmpty then "\x7b\x7d"
  else
    "\x7b\n" ++
      String.intercalate ",\n" (groups.map fun g =>
        "  " ++ jsonString g.1 ++ ": " ++
          (if g.2.isEmpty then "[]"
           else "[\n" ++
             String.intercalate ",\n" (g.2.map fun p => "    " ++ jsonString p) ++
             "\n  ]")) ++
      "\n\x7d"

/-- The text written to standard output by the non-quiet branch of main for
the retained mapping, by format (echo adds one line feed per line; print
adds one after the json document; write_csv writes its own terminators). -/
def renderOutput (output_format : OutputFormat) (hash_algorithm : String)
    (match_digests : List String) (groups : DigestGroups) : String :=
  match output_format with
  | OutputFormat.txt =>
    if !match_digests.isEmpty then
      concatStrings ((echo_matched_digests groups).map fun line => line ++ "\n")
    else
      concatStrings ((echo_duplicate_files groups hash_algorithm).map fun line => line ++ "\n")
  | OutputFormat.json => json_dumps groups ++ "\n"
  | OutputFormat.csv => write_csv groups hash_algorithm

/-- Observable outcome of the tail of main: the rendered output (none in
quiet mode, where no rendering happens) and the process exit code. -/
structure RenderResult where
  output : Option String
  exit_code : Nat
deriving DecidableEq

/-- The filtering, rendering and exit logic of main after the pool
completes: filter the mapping; in quiet mode exit 0 on a non-empty retained
mapping and 1 otherwise, rendering nothing; otherwise render in the chosen
format and exit 1 exactly when match digests were given and the retained
mapping is empty. -/
def filter_and_render (quiet : Bool) (output_format : OutputFormat)
    (hash_algorithm : String) (match_digests : List String)
    (groups : DigestGroups) : RenderResult :=
  let retained := retainGroups match_digests groups
  if quiet then
    { output := none, exit_code := if retained.isEmpty then 1 else 0 }
  else
    { output := some (renderOutput output_format hash_algorithm match_digests retained),
      exit_code := if !match_digests.isEmpty && retained.isEmpty then 1 else 0 }

/-- C1: the exit-code contract of filter_and_render.  In quiet mode nothing
is rendered and the code is 0 exactly when the retained mapping is
non-empty; in non-quiet mode output is always rendered and the code is 1
exactly in match mode with an empty retained mapping, 0 in every other
non-quiet case. -/
theorem filter_and_render_exit_codes (output_format : OutputFormat)
    (hash_algorithm : String) (match_digests : List String) (groups : DigestGroups) :
    (filter_and_render true output_format hash_algorithm match_digests groups).output =
      none ∧
    (filter_and_render true output_format hash_algorithm match_digests groups).exit_code =
      (if (retainGroups match_digests groups).isEmpty then 1 else 0) ∧
    (filter_and_render false output_format hash_algorithm match_digests groups).output =
      some (renderOutput output_format hash_algorithm match_digests
        (retainGroups match_digests groups)) ∧
    (filter_and_render false output_format hash_algorithm match_digests groups).exit_code =
      (if !match_digests.isEmpty && (retainGroups match_digests groups).isEmpty
       then 1 else 0) :=
  ⟨rfl, rfl, rfl, rfl⟩

/-- C2: membership in the retained mapping.  A group survives duplicates
mode (no match digests) exactly when it has more than one path, and match
mode exactly when its digest is in the supplied set, regardless of size. -/
theorem retainGroups_membership (match_digests : List String) (groups : DigestGroups)
    (d : String) (ps : List String) :
    ((d, ps) ∈ retainGroups match_digests groups) ↔
      ((d, ps) ∈ groups ∧
        (if match_digests = [] then 1 < ps.length else d ∈ match_digests)) := by
  unfold retainGroups
  by_cases h : match_digests = []
  · subst h
    simp [List.mem_filter]
  · simp [h, List.mem_filter, List.isEmpty_iff]

theorem concatStrings_append (l₁ l₂ : List String) :
    concatStrings (l₁ ++ l₂) = concatStrings l₁ ++ concatStrings l₂ := by
  induction l₁ with
  | nil => simp [concatStrings]
  | cons s t ih => simp [concatStrings, ih, String.append_assoc]

theorem foldl_append_concatStrings {α : Type} (f : α → String) (l : List α) :
    ∀ acc : String,
      l.foldl (fun a x => a ++ f x) acc = acc ++ concatStrings (l.map f) := by
  induction l with
  | nil => intro acc; simp [concatStrings]
  | cons x t ih =>
    intro acc
    simp [List.foldl_cons, ih, concatStrings, String.append_assoc]

theorem write_csv_eq (identical : DigestGroups) (hash_algorithm : String) :
    write_csv identical hash_algorithm =
      csvRow [hash_algorithm, "path"] ++
        concatStrings (identical.flatMap fun g => g.2.map fun file => csvRow [g.1, file]) := by
  unfold write_csv
  suffices h : ∀ acc : String,
      identical.foldl
          (fun acc g => g.2.foldl (fun acc2 file => acc2 ++ csvRow [g.1, file]) acc) acc =
        acc ++ concatStrings (identical.flatMap fun g => g.2.map fun file => csvRow [g.1, file])
    from h _
  induction identical with
  | nil => intro acc; simp [concatStrings]
  | cons g rest ih =>
    intro acc
    rw [List.foldl_cons, foldl_append_concatStrings (fun file => csvRow [g.1, file]) g.2 acc,
      ih, List.flatMap_cons, concatStrings_append, String.append_assoc]

/-- C10: write_csv always begins with the header row of the algorithm name
and the word path, followed by exactly one data row per digest and path pair
of the retained mapping; on the empty mapping the output is the header row
alone (in particular not the empty string), and for the default algorithm
the header row is the eight characters md5 comma path plus the row
terminator. -/
theorem write_csv_header (hash_algorithm : String) (identical : DigestGroups) :
    write_csv identical hash_algorithm =
      csvRow [hash_algorithm, "path"] ++
        concatStrings (identical.flatMap fun g => g.2.map fun file => csvRow [g.1, file]) ∧
    write_csv [] hash_algorithm = csvRow [hash_algorithm, "path"] ∧
    csvRow ["md5", "path"] = "md5,path\r\n" ∧
    write_csv [] hash_algorithm ≠ "" := by
  refine ⟨write_csv_eq identical hash_algorithm, rfl, by decide, ?_⟩
  intro h
  have h2 : csvRow [hash_algorithm, "path"] = "" := h
  unfold csvRow at h2
  have hlen := congrArg String.length h2
  rw [String.length_append] at hlen
  have h3 : ("\r\n" : String).length = 2 := rfl
  have h4 : ("" : String).length = 0 := rfl
  rw [h3, h4] at hlen
  omega
